import Mathlib

/-! ButlerLogic/common-api: the `Endpoint` middleware helpers of `src/index.js`

A shallow embedding of the CORS, authentication, error-reply and UUID helpers.

* A JavaScript string is a Lean `String`; the functions that look inside a string work on
  its list of characters.
* A middleware `(req, res, next) => ...` is a function from the request to the list of
  calls it makes, in order, on the framework objects it was handed (`res.setHeader`,
  `res.sendStatus`, `next()`, the assignment `req.user = ...`, `console.log`).  The
  framework itself (Express, Node) is not part of the source and is not modelled; what a
  header holds after several `setHeader` calls is read off the list with `headerOf`.
* The closure variable `host` that `allowOrigins` reassigns is explicit state: the
  middleware returns the new value of the variable together with its calls.
* The built-ins whose result depends on the Unicode tables or on the Node runtime
  (`toLowerCase`, `toUpperCase`, the base64 decoder behind `atob`) are fields of `Runtime`,
  so that general theorems hold for every such function; `asciiRuntime` is the instance
  used to evaluate the code on plain ASCII inputs.
-/

namespace CommonApi

/-! ## JavaScript values and built-ins -/

/-- Built-ins of the JavaScript runtime that the source calls and that are taken as given:
`String.prototype.toLowerCase`, `String.prototype.toUpperCase` and
`Buffer.from(str, 'base64').toString('binary')`. -/
structure Runtime where
  toLowerCase : String → String
  toUpperCase : String → String
  base64ToBinary : String → String

/-- The value handed to `res.setHeader`: a string, or an array of strings. -/
inductive HeaderValue where
  | str (s : String)
  | list (l : List String)
  deriving DecidableEq, Repr

/-- The body handed to the framework by `replyWithError`: `res.send(message)` or
`res.json({ status, message })`. -/
inductive Body where
  | send (message : String)
  | json (status : Int) (message : String)
  deriving DecidableEq, Repr

/-- One call made by the source on the objects of the host framework. -/
inductive Call where
  | setHeader (name : String) (value : HeaderValue)
  | sendStatus (code : Nat)
  | next
  | setUser (user : String)
  | consoleLog (line : String)
  | incident (name message : String)
  | setStatusMessage (message : String)
  | status (code : Int)
  | body (b : Body)
  deriving DecidableEq, Repr

/-- The request view: the method, `req.get('origin')`, `req.get('referer')`,
`req.get('host')`, `req.get('authorization')`, the raw header
`req.headers['access-control-request-headers']` and `Object.keys(req.headers)`.
A header that is absent reads as `undefined`, here `none`. -/
structure Request where
  method : String := "GET"
  origin : Option String := none
  referer : Option String := none
  host : Option String := none
  authorization : Option String := none
  accessControlRequestHeaders : Option String := none
  headerNames : List String := []
  deriving DecidableEq, Repr

/-- JavaScript truthiness of a value that is a string or `undefined`. -/
def truthy : Option String → Bool
  | some s => s != ""
  | none => false

/-- The operator `a || b` on values that are strings or `undefined`. -/
def orElse (a b : Option String) : Option String :=
  if truthy a then a else b

/-- The header value after a list of calls: `res.setHeader(name, value)` replaces what an
earlier call stored under the same name. -/
def headerOf (name : String) : List Call → Option HeaderValue
  | [] => none
  | c :: rest =>
    match headerOf name rest with
    | some v => some v
    | none =>
      match c with
      | .setHeader n v => if n = name then some v else none
      | _ => none

/-- The status codes sent with `res.sendStatus`, in order. -/
def statusesSent : List Call → List Nat
  | [] => []
  | .sendStatus code :: rest => code :: statusesSent rest
  | _ :: rest => statusesSent rest

/-- The number of times the continuation `next` was invoked. -/
def nextCalls (calls : List Call) : Nat :=
  calls.count Call.next

/-- The characters matched by `\s` in a regular expression and removed by
`String.prototype.trim`: the ECMAScript WhiteSpace and LineTerminator code points. -/
def isWhiteSpace (c : Char) : Bool :=
  let n := c.toNat
  n = 0x09 || n = 0x0A || n = 0x0B || n = 0x0C || n = 0x0D || n = 0x20 || n = 0xA0 ||
    n = 0x1680 || (0x2000 ≤ n && n ≤ 0x200A) || n = 0x2028 || n = 0x2029 || n = 0x202F ||
    n = 0x205F || n = 0x3000 || n = 0xFEFF

/-- The method `String.prototype.trim`. -/
def trim (s : String) : String :=
  String.mk ((s.data.dropWhile isWhiteSpace).reverse.dropWhile isWhiteSpace).reverse

/-- The test `s.indexOf(sub) >= 0` on strings: `sub` occurs in `s`. -/
def includes (s sub : String) : Bool :=
  decide (sub.data <:+: s.data)

/-- Splitting a list of characters at every occurrence of `sep`. -/
def splitChars (sep : Char) : List Char → List (List Char)
  | [] => [[]]
  | c :: cs =>
    if c = sep then [] :: splitChars sep cs
    else
      match splitChars sep cs with
      | [] => [[c]]
      | p :: ps => (c :: p) :: ps

/-- The method `s.split(sep)` for a one-character separator. -/
def split (s : String) (sep : Char) : List String :=
  (splitChars sep s.data).map String.mk

/-- Splitting at every maximal run of white space; `afterSpace` tells whether the
character before was white space. -/
def splitSpaceAux : Bool → List Char → List (List Char)
  | _, [] => [[]]
  | afterSpace, c :: cs =>
    if isWhiteSpace c then
      if afterSpace then splitSpaceAux true cs else [] :: splitSpaceAux true cs
    else
      match splitSpaceAux false cs with
      | [] => [[c]]
      | p :: ps => (c :: p) :: ps

/-- The expression `s.split(/\s+/i)`. -/
def splitWhitespace (s : String) : List String :=
  (splitSpaceAux false s.data).map String.mk

/-- The template literal `${v}` of a value that is a string or `undefined`. -/
def render : Option String → String
  | some s => s
  | none => "undefined"

/-- The method `Set.prototype.add`: a value already in the set is not added again, a new
value goes to the end of the insertion order. -/
def setAdd (s : List String) (x : String) : List String :=
  if x ∈ s then s else s ++ [x]

/-- The expression `Array.from(new Set(xs))`: the values of `xs` in insertion order. -/
def arrayFromSet (xs : List String) : List String :=
  xs.foldl setAdd []

/-! ## CORS: methods and headers -/

/-- The constant `COMMON_HEADERS`, as `Array.from` lists it. -/
def COMMON_HEADERS : List String :=
  arrayFromSet ["Origin", "X-Requested-With", "Content-Type", "Accept"]

/-- The constant `HTTP_METHODS`, as `Array.from` lists it. -/
def HTTP_METHODS : List String :=
  arrayFromSet ["GET", "HEAD", "POST", "PUT", "DELETE", "CONNECT", "OPTIONS", "TRACE", "PATCH"]

/-- The getter `commonHeaders`: `Array.from(COMMON_HEADERS)`. -/
def commonHeaders : List String :=
  COMMON_HEADERS

/-- The getter `httpMethods`: `Array.from(HTTP_METHODS)`. -/
def httpMethods : List String :=
  HTTP_METHODS

/-- The part `if (next) { next() }` shared by the CORS middleware. -/
def callNext (hasNext : Bool) : List Call :=
  if hasNext then [Call.next] else []

/-- The middleware returned by `allowMethods(...args)`; `hasNext` tells whether it was
called with a continuation. -/
def allowMethods (rt : Runtime) (args : List String) (hasNext : Bool) : List Call :=
  Call.setHeader "Access-Control-Allow-Methods"
      (.list (arrayFromSet (args.map rt.toUpperCase))) :: callNext hasNext

/-- The middleware returned by `allowHeaders(...args)`. -/
def allowHeaders (rt : Runtime) (args : List String) (hasNext : Bool) : List Call :=
  Call.setHeader "Access-Control-Allow-Headers"
      (.list (arrayFromSet (args.map rt.toLowerCase))) :: callNext hasNext

/-! ## CORS: origins -/

/-- The test `host.indexOf(needle) >= 0` on the variable `host`: a substring test when
`host` is a string, an element test when it is an array. -/
def hostIncludes (host : HeaderValue) (needle : String) : Bool :=
  match host with
  | .str s => includes s needle
  | .list l => decide (needle ∈ l)

/-- The method `Array.prototype.indexOf`: the first index of `x`, or `-1`. -/
def arrayIndexOf (l : List String) (x : String) : Int :=
  if l.indexOf x < l.length then (l.indexOf x : Nat) else -1

/-- The expression `declared || host`, where `declared` is a string or `undefined`. -/
def orHost (declared : Option String) (host : HeaderValue) : HeaderValue :=
  match declared with
  | some s => if s != "" then .str s else host
  | none => host

/-- The expression `first || fallback` of `host[0] || req.get('host')`. -/
def orString (first : Option String) (fallback : String) : String :=
  match first with
  | some s => if s != "" then s else fallback
  | none => fallback

/-- The new value of the closure variable `host` after the middleware returned by
`allowOrigins(host)` handled `req`, and the value it computed for the header; the header
value is `none` when `req.get('host').toLowerCase()` throws a `TypeError` because the
request has no `Host` header (the array was already filtered and lower-cased then). -/
def resolveOrigin (rt : Runtime) (host : HeaderValue) (req : Request) :
    HeaderValue × Option HeaderValue :=
  if host = .str "*" || hostIncludes host "*" then
    let host1 := orHost (orElse req.origin req.referer) host
    let host2 := if hostIncludes host1 "localhost" then host1 else .str "*"
    (host2, some host2)
  else
    match host with
    | .list l =>
      let l1 := (l.filter (fun h => (trim h).length > 0)).map rt.toLowerCase
      match req.host with
      | none => (.list l1, none)
      | some h =>
        let index := arrayIndexOf l1 (rt.toLowerCase h)
        let host2 :=
          if index ≥ 0 then l1.getD index.toNat "" else orString l1.head? h
        (.str host2, some (.str host2))
    | .str s => (.str s, some (.str s))

/-- The middleware returned by `allowOrigins(host)`, run on the current value of its
closure variable `host`: the new value of the variable and the calls made, `none` when
the `TypeError` was thrown. -/
def allowOrigins (rt : Runtime) (host : HeaderValue) (req : Request) (hasNext : Bool) :
    HeaderValue × Option (List Call) :=
  match resolveOrigin rt host req with
  | (host1, some v) =>
    (host1, some (Call.setHeader "Access-Control-Allow-Origin" v :: callNext hasNext))
  | (host1, none) => (host1, none)

/-- One middleware instance `allowOrigins(host)` handling the requests `reqs` one after
the other: for each request the value written to `Access-Control-Allow-Origin`
(`none` when the request made the middleware throw). -/
def originsWritten (rt : Runtime) (host : HeaderValue) : List Request → List (Option HeaderValue)
  | [] => []
  | req :: rest =>
    let r := allowOrigins rt host req true
    (r.2.bind (headerOf "Access-Control-Allow-Origin")) :: originsWritten rt r.1 rest

/-! ## CORS: preflight and the composite policies -/

/-- The middleware returned by `allowPreflight()`. -/
def allowPreflight (rt : Runtime) (req : Request) : List Call :=
  if rt.toUpperCase req.method = "OPTIONS" then
    (if truthy req.accessControlRequestHeaders then
        allowHeaders rt (split (req.accessControlRequestHeaders.getD "") ',') false
      else []) ++ [Call.sendStatus 200]
  else
    [Call.next]

/-- The middleware that `applySimpleCORS(app, host)` registers with `app.use`; `host` is
the value of the variable after the `arguments.length > 2` adjustment.  The last
statement, `this.allowPreflight(req, res, next)`, evaluates to the middleware that
`allowPreflight` returns and drops it: `allowPreflight` takes no parameter and the
function it returns is not called. -/
def applySimpleCORS (rt : Runtime) (host : HeaderValue) (req : Request) : Option (List Call) :=
  match (allowOrigins rt host req false).2 with
  | none => none
  | some origins =>
    let headers := allowHeaders rt commonHeaders false
    let methods := allowMethods rt ["GET", "POST", "PUT", "PATCH", "DELETE", "OPTIONS"] false
    let _preflight : Request → List Call := allowPreflight rt
    some (origins ++ headers ++ methods)

/-- The middleware returned by `allowAll(host)`; `host` is the argument handed on to
`allowOrigins`. -/
def allowAll (rt : Runtime) (host : HeaderValue) (req : Request) : Option (List Call) :=
  match (allowOrigins rt host req false).2 with
  | none => none
  | some origins =>
    some (origins ++ allowMethods rt HTTP_METHODS false ++
      allowHeaders rt req.headerNames false ++ allowPreflight rt req)

/-! ## Authentication -/

/-- The method `atob(str)`: `Buffer.from(str, 'base64').toString('binary')`. -/
def atob (rt : Runtime) (str : String) : String :=
  rt.base64ToBinary str

/-- The first argument of `basicauth`: static credentials, or a function that receives the
decoded user name and password and the two continuations; the function is represented by
the sequence of continuations it invokes (`true` for `grantedFn`, `false` for
`deniedFn`). -/
inductive BasicConfig where
  | static (username password : String)
  | custom (verify : String → String → List Bool)

/-- The two statements that end `basicauth`: the challenge header and `sendStatus(401)`. -/
def denyBasic (req : Request) : List Call :=
  [Call.setHeader "WWW-Authenticate" (.str ("Basic realm=" ++ render req.host)),
   Call.sendStatus 401]

/-- The middleware returned by `basicauth(username, password)`. -/
def basicauth (rt : Runtime) (cfg : BasicConfig) (req : Request) : List Call :=
  if truthy req.authorization then
    let credentials := (splitWhitespace (req.authorization.getD "")).getLast?
    if truthy credentials && (trim (credentials.getD "")).length > 0 then
      let parts := split (atob rt (credentials.getD "")) ':'
      if parts.length = 2 then
        match cfg with
        | .custom verify =>
          (verify (parts.getD 0 "") (parts.getD 1 "")).flatMap fun granted =>
            if granted then [Call.setUser (parts.getD 0 ""), Call.next] else denyBasic req
        | .static username password =>
          if parts.getD 0 "" = username && parts.getD 1 "" = password then
            [Call.setUser username, Call.next]
          else denyBasic req
      else denyBasic req
    else denyBasic req
  else denyBasic req

/-- The first argument of `bearer`: a token with the case-sensitivity flag, or a function;
the function returns `none` for a falsy value and `some v` for the truthy value `v`. -/
inductive BearerConfig where
  | token (token : String) (caseSensitive : Bool)
  | verifier (f : String → Option String)

/-- Whether `s` starts with the letters of `word`, compared as the flag `i` of a regular
expression compares ASCII letters. -/
def startsWithIgnoreCase : List Char → List Char → Bool
  | [], _ => true
  | _ :: _, [] => false
  | w :: ws, c :: cs => c.toLower == w.toLower && startsWithIgnoreCase ws cs

/-- The expression `input.replace(/^(\s+)?bearer(\s+)?/i, '')`. -/
def stripBearer (input : String) : String :=
  let rest := input.data.dropWhile isWhiteSpace
  if startsWithIgnoreCase "bearer".data rest then
    String.mk ((rest.drop 6).dropWhile isWhiteSpace)
  else input

/-- The middleware returned by `bearer(token, caseSensitive)`: the value of the variable
`token` afterwards (it is reassigned when the comparison ignores case) and the calls
made.  With a function as `token` and a truthy result, the `return` statement hands back
the arrow function `() => { req.user = data; next() }` without calling it. -/
def bearer (rt : Runtime) (cfg : BearerConfig) (req : Request) : BearerConfig × List Call :=
  if truthy req.authorization then
    let input := stripBearer (req.authorization.getD "")
    match cfg with
    | .verifier f =>
      match f input with
      | some data =>
        let _granted : List Call := [Call.setUser data, Call.next]
        (cfg, [])
      | none => (cfg, [Call.sendStatus 401])
    | .token token caseSensitive =>
      let input1 := if caseSensitive then input else rt.toLowerCase input
      let token1 := if caseSensitive then token else rt.toLowerCase token
      if input1 = token1 then
        (.token token1 caseSensitive, [Call.setUser token1, Call.next])
      else (.token token1 caseSensitive, [Call.sendStatus 401])
  else (cfg, [Call.sendStatus 401])

/-! ## Identifiers -/

/-- The random source behind `require('crypto').randomBytes`: the stream of values it
hands out (each read modulo 256), the number of bytes drawn so far and the buffer
lengths of the calls of `getRandomValues` served so far. -/
structure RandomSource where
  bytes : Nat → Nat
  pos : Nat := 0
  requests : List Nat := []

/-- The error object thrown by `getRandomValues` for a buffer of more than 65536 bytes. -/
structure QuotaExceededError where
  code : Nat
  name : String
  deriving DecidableEq, Repr

/-- The function `getRandomValues(buf)` for a `Uint8Array` of `len` bytes: the filled
buffer and the random source afterwards. -/
def getRandomValues (rng : RandomSource) (len : Nat) :
    Except QuotaExceededError (List Nat × RandomSource) :=
  if len > 65536 then
    .error { code := 22, name := "QuotaExceededError" }
  else
    .ok ((List.range len).map (fun i => rng.bytes (rng.pos + i) % 256),
      { rng with pos := rng.pos + len, requests := rng.requests ++ [len] })

/-- The string `[1e7] + -1e3 + -4e3 + -8e3 + -1e11`. -/
def uuidTemplate : String :=
  toString (10000000 : Int) ++ toString (-1000 : Int) ++ toString (-4000 : Int) ++
    toString (-8000 : Int) ++ toString (-100000000000 : Int)

/-- The numeric value of a digit character, as the operators `^` and `/` coerce it. -/
def digitValue (c : Char) : Nat :=
  c.toNat - '0'.toNat

/-- The callback `c => (c ^ r & 15 >> c / 4).toString(16)` for the random byte `r`; the
operators bind as `c ^ (r & (15 >> (c / 4)))`, and the shift count `c / 4` is truncated
to an integer. -/
def replaceDigit (c : Char) (r : Nat) : List Char :=
  Nat.toDigits 16 (digitValue c ^^^ (r &&& (15 >>> (digitValue c / 4))))

/-- The call `.replace(/[018]/g, callback)` of `createUUID` on a list of characters: every
`0`, `1` or `8` is replaced with the callback's result for a fresh one-byte buffer. -/
def replaceAll : List Char → RandomSource → Except QuotaExceededError (List Char × RandomSource)
  | [], rng => .ok ([], rng)
  | c :: cs, rng =>
    if c = '0' ∨ c = '1' ∨ c = '8' then
      match getRandomValues rng 1 with
      | .error e => .error e
      | .ok (buf, rng1) =>
        match replaceAll cs rng1 with
        | .error e => .error e
        | .ok (rest, rng2) => .ok (replaceDigit c (buf.getD 0 0) ++ rest, rng2)
    else
      match replaceAll cs rng with
      | .error e => .error e
      | .ok (rest, rng2) => .ok (c :: rest, rng2)

/-- The method `createUUID()`. -/
def createUUID (rng : RandomSource) : Except QuotaExceededError (String × RandomSource) :=
  match replaceAll uuidTemplate.data rng with
  | .error e => .error e
  | .ok (chars, rng1) => .ok (String.mk chars, rng1)

/-! ## Error replies -/

/-- The arguments after `res` of `replyWithError` and `replyWithMaskedError`.

* `plain status message`: no `Error` object at the end; an argument left out (or
  `undefined`) is `none` and takes its default.
* `trailingError status message`: the last argument is an `Error` whose `message` is
  `message`; `status` is `some n` when the parameter `status` holds the number `n`, and
  `none` when it holds something that is not a number, such as the `Error` itself in
  `replyWithError(res, err)`. -/
inductive ErrorArgs where
  | plain (status : Option Int) (message : Option String)
  | trailingError (status : Option Int) (message : String)
  deriving DecidableEq, Repr

/-- The values of `status` and `message` after the defaults and after the block
`if (arguments[arguments.length - 1] instanceof Error) ...`. -/
def resolveArgs : ErrorArgs → Int × String
  | .plain status message => (status.getD 500, message.getD "Server Error")
  | .trailingError status message =>
    (match status with
      | some n => n
      | none => 400, message)

/-- The method `replyWithError(res, status, message)` of an instance whose `__errorType`
is `errorType`. -/
def replyWithError (errorType : String) (args : ErrorArgs) : List Call :=
  let (status, message) := resolveArgs args
  (if status ≥ 500 then [Call.incident "Server Error" message] else []) ++
    [Call.setStatusMessage message, Call.status status,
      if errorType = "json" then Call.body (.json status message)
      else Call.body (.send message)]

/-- The method `replyWithMaskedError(res, status, message)`: the random source afterwards
and the calls made. -/
def replyWithMaskedError (errorType : String) (rng : RandomSource) (args : ErrorArgs) :
    Except QuotaExceededError (RandomSource × List Call) :=
  match createUUID rng with
  | .error e => .error e
  | .ok (txnId, rng1) =>
    let (status, message) := resolveArgs args
    .ok (rng1,
      Call.consoleLog ("[ERROR:" ++ txnId ++ "] (" ++ toString status ++ ") " ++ message) ::
        replyWithError errorType
          (.plain (some status) (some ("An error occurred. Reference: " ++ txnId))))

/-- What the client can see of a list of calls: everything but the server-side logs. -/
def clientVisible (calls : List Call) : List Call :=
  calls.filter fun c =>
    match c with
    | .consoleLog _ => false
    | .incident _ _ => false
    | _ => true

/-- One character inside a JSON string literal, as `JSON.stringify` writes it. -/
def jsonEscape (c : Char) : List Char :=
  if c = '"' then ['\\', '"']
  else if c = '\\' then ['\\', '\\']
  else if c.toNat = 0x08 then ['\\', 'b']
  else if c.toNat = 0x09 then ['\\', 't']
  else if c.toNat = 0x0A then ['\\', 'n']
  else if c.toNat = 0x0C then ['\\', 'f']
  else if c.toNat = 0x0D then ['\\', 'r']
  else if c.toNat < 0x20 then
    ['\\', 'u', '0', '0', Nat.digitChar (c.toNat / 16), Nat.digitChar (c.toNat % 16)]
  else [c]

/-- The text of a body: the message itself for `res.send(message)`, and
`JSON.stringify({ status, message })` for `res.json`. -/
def bodyText : Body → String
  | .send message => message
  | .json status message =>
    "\x7b\"status\":" ++ toString status ++ ",\"message\":\"" ++
      String.mk (message.data.flatMap jsonEscape) ++ "\"\x7d"

/-- The lower-case hexadecimal digits. -/
def isLowerHex (c : Char) : Bool :=
  decide (c ∈ "0123456789abcdef".data)

/-- The body texts sent by a list of calls. -/
def bodiesSent : List Call → List String
  | [] => []
  | .body b :: rest => bodyText b :: bodiesSent rest
  | _ :: rest => bodiesSent rest

/-! ## The ASCII instance of the runtime -/

/-- The value of a character of the base64 alphabet (the standard one and the
URL-safe one), `none` for any other character. -/
def unbase64 (c : Char) : Option Nat :=
  let n := c.toNat
  if 'A'.toNat ≤ n ∧ n ≤ 'Z'.toNat then some (n - 'A'.toNat)
  else if 'a'.toNat ≤ n ∧ n ≤ 'z'.toNat then some (n - 'a'.toNat + 26)
  else if '0'.toNat ≤ n ∧ n ≤ '9'.toNat then some (n - '0'.toNat + 52)
  else if c = '+' ∨ c = '-' then some 62
  else if c = '/' ∨ c = '_' then some 63
  else none

/-- The six-bit values of a base64 text: characters outside the alphabet are skipped and
decoding stops at the first `=`, as the decoder of Node does. -/
def sextets : List Char → List Nat
  | [] => []
  | c :: cs =>
    if c = '=' then []
    else
      match unbase64 c with
      | some v => v :: sextets cs
      | none => sextets cs

/-- The bytes encoded by a list of six-bit values. -/
def sextetsToBytes : List Nat → List Nat
  | a :: b :: c :: d :: rest =>
    (a * 4 + b / 16) :: (b % 16 * 16 + c / 4) :: (c % 4 * 64 + d) :: sextetsToBytes rest
  | [a, b, c] => [a * 4 + b / 16, b % 16 * 16 + c / 4]
  | [a, b] => [a * 4 + b / 16]
  | _ => []

/-- The runtime restricted to ASCII: case mapping of the letters `a` to `z`, and
base64 decoding into one character per byte. -/
def asciiRuntime : Runtime where
  toLowerCase s := String.mk (s.data.map Char.toLower)
  toUpperCase s := String.mk (s.data.map Char.toUpper)
  base64ToBinary s := String.mk ((sextetsToBytes (sextets s.data)).map Char.ofNat)

/-! # Theorems -/

/-! ## Insertion order of a `Set` -/

theorem foldl_setAdd_spec (xs : List String) :
    ∀ (p acc : List String), (∀ x, x ∈ acc ↔ x ∈ p) → acc.Nodup →
      acc.Pairwise (fun a b => (p ++ xs).indexOf a < (p ++ xs).indexOf b) →
      (∀ x, x ∈ xs.foldl setAdd acc ↔ x ∈ p ++ xs) ∧ (xs.foldl setAdd acc).Nodup ∧
        (xs.foldl setAdd acc).Pairwise
          (fun a b => (p ++ xs).indexOf a < (p ++ xs).indexOf b) := by
  induction xs with
  | nil =>
    intro p acc hmem hnd hpw
    simpa using ⟨hmem, hnd, by simpa using hpw⟩
  | cons y ys ih =>
    intro p acc hmem hnd hpw
    have hassoc : p ++ y :: ys = (p ++ [y]) ++ ys := by simp
    rw [List.foldl_cons, hassoc]
    rw [hassoc] at hpw
    by_cases hy : y ∈ acc
    · have hacc : setAdd acc y = acc := by simp [setAdd, hy]
      rw [hacc]
      refine ih (p ++ [y]) acc ?_ hnd hpw
      intro x
      constructor
      · intro hx
        exact List.mem_append_left _ ((hmem x).1 hx)
      · intro hx
        rcases List.mem_append.1 hx with h | h
        · exact (hmem x).2 h
        · have : x = y := by simpa using h
          exact this ▸ hy
    · have hacc : setAdd acc y = acc ++ [y] := by simp [setAdd, hy]
      have hyp : y ∉ p := fun h => hy ((hmem y).2 h)
      rw [hacc]
      refine ih (p ++ [y]) (acc ++ [y]) ?_ ?_ ?_
      · intro x
        simp [hmem x]
      · exact List.nodup_append.2 ⟨hnd, List.nodup_singleton y, by
          intro a ha hb
          have : a = y := by simpa using hb
          exact hy (this ▸ ha)⟩
      · refine List.pairwise_append.2 ⟨hpw, List.pairwise_singleton _ _, ?_⟩
        intro a ha b hb
        have hb' : b = y := by simpa using hb
        subst hb'
        have hap : a ∈ p := (hmem a).1 ha
        rw [← hassoc, List.indexOf_append_of_mem hap, List.indexOf_append_of_not_mem hyp]
        have := List.indexOf_lt_length.2 hap
        simp
        omega

theorem arrayFromSet_spec (xs : List String) :
    (∀ x, x ∈ arrayFromSet xs ↔ x ∈ xs) ∧ (arrayFromSet xs).Nodup ∧
      (arrayFromSet xs).Pairwise (fun a b => xs.indexOf a < xs.indexOf b) := by
  have h := foldl_setAdd_spec xs [] [] (by simp) List.nodup_nil List.Pairwise.nil
  simpa [arrayFromSet] using h

theorem headerOf_setHeader_callNext (name : String) (v : HeaderValue) (hasNext : Bool) :
    headerOf name (Call.setHeader name v :: callNext hasNext) = some v := by
  cases hasNext <;> simp [headerOf, callNext]

/-- C5: the value written by `allowMethods` (resp. `allowHeaders`) is a list without
duplicates whose members are exactly the upper-cased (resp. lower-cased) arguments, every
normalized argument occurring exactly once, in the order of first occurrence among the
normalized arguments. -/
theorem allowMethods_allowHeaders_deduplicate (rt : Runtime) (args : List String)
    (hasNext : Bool) :
    (∃ v, headerOf "Access-Control-Allow-Methods" (allowMethods rt args hasNext)
          = some (.list v) ∧
        v.Nodup ∧ (∀ x, x ∈ v ↔ x ∈ args.map rt.toUpperCase) ∧
        (∀ a ∈ args, v.count (rt.toUpperCase a) = 1) ∧
        v.Pairwise (fun a b =>
          (args.map rt.toUpperCase).indexOf a < (args.map rt.toUpperCase).indexOf b)) ∧
    (∃ v, headerOf "Access-Control-Allow-Headers" (allowHeaders rt args hasNext)
          = some (.list v) ∧
        v.Nodup ∧ (∀ x, x ∈ v ↔ x ∈ args.map rt.toLowerCase) ∧
        (∀ a ∈ args, v.count (rt.toLowerCase a) = 1) ∧
        v.Pairwise (fun a b =>
          (args.map rt.toLowerCase).indexOf a < (args.map rt.toLowerCase).indexOf b)) := by
  constructor
  · obtain ⟨hmem, hnd, hpw⟩ := arrayFromSet_spec (args.map rt.toUpperCase)
    refine ⟨_, headerOf_setHeader_callNext _ _ _, hnd, hmem, ?_, hpw⟩
    intro a ha
    exact List.count_eq_one_of_mem hnd ((hmem _).2 (List.mem_map_of_mem _ ha))
  · obtain ⟨hmem, hnd, hpw⟩ := arrayFromSet_spec (args.map rt.toLowerCase)
    refine ⟨_, headerOf_setHeader_callNext _ _ _, hnd, hmem, ?_, hpw⟩
    intro a ha
    exact List.count_eq_one_of_mem hnd ((hmem _).2 (List.mem_map_of_mem _ ha))

/-! ## Identifiers -/

theorem replaceDigit_spec (c : Char) (r : Nat) (hc : c = '0' ∨ c = '1' ∨ c = '8') :
    ∃ d, replaceDigit c r = [d] ∧ isLowerHex d = true ∧
      (c = '8' → d ∈ ['8', '9', 'a', 'b']) := by
  rcases hc with rfl | rfl | rfl
  · have h0 : digitValue '0' = 0 := by decide
    have hk : r % 16 < 16 := Nat.mod_lt _ (by decide)
    have hand : r &&& 15 = r % 16 := Nat.and_pow_two_sub_one_eq_mod r 4
    simp only [replaceDigit, h0, Nat.zero_div, Nat.shiftRight_zero, hand, Nat.zero_xor]
    generalize r % 16 = k at hk
    interval_cases k <;> exact ⟨_, rfl, by decide, by decide⟩
  · have h1 : digitValue '1' = 1 := by decide
    have hk : r % 16 < 16 := Nat.mod_lt _ (by decide)
    have hand : r &&& 15 = r % 16 := Nat.and_pow_two_sub_one_eq_mod r 4
    have hdiv : (1 : Nat) / 4 = 0 := by decide
    simp only [replaceDigit, h1, hdiv, Nat.shiftRight_zero, hand]
    generalize r % 16 = k at hk
    interval_cases k <;> exact ⟨_, rfl, by decide, by decide⟩
  · have h8 : digitValue '8' = 8 := by decide
    have hk : r % 4 < 4 := Nat.mod_lt _ (by decide)
    have hand : r &&& 3 = r % 4 := Nat.and_pow_two_sub_one_eq_mod r 2
    have hsh : 15 >>> ((8 : Nat) / 4) = 3 := by decide
    simp only [replaceDigit, h8, hsh, hand]
    generalize r % 4 = k at hk
    interval_cases k <;> exact ⟨_, rfl, by decide, by decide⟩


theorem replaceAll_spec (cs : List Char) :
    ∀ rng : RandomSource, ∃ out rng1, replaceAll cs rng = .ok (out, rng1) ∧
      List.Forall₂ (fun t o =>
        if t = '0' ∨ t = '1' ∨ t = '8' then
          isLowerHex o = true ∧ (t = '8' → o ∈ ['8', '9', 'a', 'b'])
        else o = t) cs out ∧
      rng1.bytes = rng.bytes ∧
      rng1.pos = rng.pos + cs.countP (fun c => decide (c = '0' ∨ c = '1' ∨ c = '8')) ∧
      rng1.requests = rng.requests ++
        List.replicate (cs.countP (fun c => decide (c = '0' ∨ c = '1' ∨ c = '8'))) 1 := by
  induction cs with
  | nil =>
    intro rng
    exact ⟨[], rng, rfl, List.Forall₂.nil, rfl, by simp, by simp⟩
  | cons c cs ih =>
    intro rng
    by_cases hc : c = '0' ∨ c = '1' ∨ c = '8'
    · obtain ⟨d, hd, hhex, hvar⟩ := replaceDigit_spec c
        ((rng.bytes (rng.pos + 0) % 256)) hc
      obtain ⟨out, rng1, hrun, hall, hbytes, hpos, hreq⟩ :=
        ih { rng with pos := rng.pos + 1, requests := rng.requests ++ [1] }
      refine ⟨d :: out, rng1, ?_, ?_, ?_, ?_, ?_⟩
      · simp only [replaceAll, if_pos hc, getRandomValues]
        simp only [Nat.add_zero] at hd
        simp [hrun, hd]
      · exact List.Forall₂.cons (by simp only [if_pos hc]; exact ⟨hhex, hvar⟩) hall
      · simpa using hbytes
      · rw [hpos, List.countP_cons_of_pos _ _ (by simpa using hc)]
        simp only []
        omega
      · rw [hreq, List.countP_cons_of_pos _ _ (by simpa using hc)]
        simp [List.replicate_succ]
    · obtain ⟨out, rng1, hrun, hall, hbytes, hpos, hreq⟩ := ih rng
      refine ⟨c :: out, rng1, ?_, ?_, hbytes, ?_, ?_⟩
      · simp only [replaceAll, if_neg hc]
        simp [hrun]
      · exact List.Forall₂.cons (by simp only [if_neg hc]) hall
      · rw [hpos, List.countP_cons_of_neg _ _ (by simpa using hc)]
      · rw [hreq, List.countP_cons_of_neg _ _ (by simpa using hc)]

theorem uuidTemplate_data :
    uuidTemplate.data = "10000000-1000-4000-8000-100000000000".data := by
  decide

/-- C8: for every random source `createUUID` returns (it never raises the quota error) a
string of 36 characters with a hyphen at the indices 8, 13, 18 and 23 and a lower-case
hexadecimal digit everywhere else, the digit `4` at index 14 and one of `8`, `9`, `a`,
`b` at index 19; it makes 31 calls of `getRandomValues`, each for a buffer of one
byte. -/
theorem createUUID_canonical (rng : RandomSource) :
    ∃ s rng1, createUUID rng = .ok (s, rng1) ∧ s.length = 36 ∧
      (∀ i : Fin 36, ∃ c, s.data[i.val]? = some c ∧
        (if i.val = 8 ∨ i.val = 13 ∨ i.val = 18 ∨ i.val = 23 then c = '-'
          else isLowerHex c = true)) ∧
      s.data[14]? = some '4' ∧
      (∃ c, s.data[19]? = some c ∧ c ∈ ['8', '9', 'a', 'b']) ∧
      rng1.requests = rng.requests ++ List.replicate 31 1 ∧
      rng1.pos = rng.pos + 31 ∧ rng1.bytes = rng.bytes := by
  obtain ⟨out, rng1, hrun, hall, hbytes, hpos, hreq⟩ := replaceAll_spec uuidTemplate.data rng
  have hcount : uuidTemplate.data.countP (fun c => decide (c = '0' ∨ c = '1' ∨ c = '8')) = 31 := by
    decide
  rw [hcount] at hpos hreq
  have hlen : out.length = 36 := by
    rw [← hall.length_eq]
    decide
  have hget : ∀ i : Fin 36, ∃ c, out[i.val]? = some c ∧
      (if uuidTemplate.data[i.val]? = some '0' ∨ uuidTemplate.data[i.val]? = some '1' ∨
          uuidTemplate.data[i.val]? = some '8' then
        isLowerHex c = true ∧ (uuidTemplate.data[i.val]? = some '8' → c ∈ ['8', '9', 'a', 'b'])
       else uuidTemplate.data[i.val]? = some c) := by
    intro i
    have hi : i.val < out.length := by rw [hlen]; exact i.isLt
    have hi' : i.val < uuidTemplate.data.length := by rw [hall.length_eq]; exact hi
    have h := hall.get hi' hi
    refine ⟨out[i.val], List.getElem?_eq_getElem hi, ?_⟩
    rw [List.getElem?_eq_getElem hi']
    simp only [List.get_eq_getElem, Option.some.injEq] at h ⊢
    split_ifs at h ⊢ with hc
    · exact h
    · exact h.symm
  refine ⟨String.mk out, rng1, ?_, hlen, ?_, ?_, ?_, hreq, hpos, hbytes⟩
  · simp [createUUID, hrun]
  · intro i
    obtain ⟨c, hc, hprop⟩ := hget i
    refine ⟨c, hc, ?_⟩
    rw [uuidTemplate_data] at hprop
    fin_cases i <;> simp at hprop ⊢ <;> first | exact hprop.symm | exact hprop | exact hprop.1 | (subst hprop; decide)
  · obtain ⟨c, hc, hprop⟩ := hget ⟨14, by decide⟩
    rw [uuidTemplate_data] at hprop
    simp at hprop
    rw [hprop]; exact hc
  · obtain ⟨c, hc, hprop⟩ := hget ⟨19, by decide⟩
    rw [uuidTemplate_data] at hprop
    simp at hprop
    exact ⟨c, hc, by simpa using hprop.2⟩


/-! ## Error replies -/

theorem forall₂_right_of_left {α β : Type} {R : α → β → Prop} {P : β → Prop} {l : List α}
    {out : List β} (h : List.Forall₂ R l out) (hP : ∀ t ∈ l, ∀ o, R t o → P o) :
    ∀ o ∈ out, P o := by
  induction h with
  | nil => simp
  | cons hr _ ih =>
    intro o ho
    rcases List.mem_cons.1 ho with rfl | ho
    · exact hP _ (List.mem_cons_self _ _) _ hr
    · exact ih (fun t ht => hP t (List.mem_cons_of_mem _ ht)) o ho

theorem createUUID_chars (rng : RandomSource) :
    ∃ s rng1, createUUID rng = .ok (s, rng1) ∧ s.length = 36 ∧
      ∀ c ∈ s.data, isLowerHex c = true ∨ c = '-' := by
  obtain ⟨out, rng1, hrun, hall, -, -, -⟩ := replaceAll_spec uuidTemplate.data rng
  refine ⟨String.mk out, rng1, by simp [createUUID, hrun], ?_, ?_⟩
  · show out.length = 36
    rw [← hall.length_eq]
    decide
  · refine forall₂_right_of_left hall ?_
    intro t ht o hr
    have hsub : ∀ t ∈ uuidTemplate.data, t ∈ ['0', '1', '8', '4', '-'] := by decide
    have htm := hsub t ht
    simp only [List.mem_cons, List.mem_singleton, List.not_mem_nil, or_false] at htm
    rcases htm with rfl | rfl | rfl | rfl | rfl
    · exact Or.inl (by simpa using hr)
    · exact Or.inl (by simpa using hr)
    · exact Or.inl (by simpa using hr.1)
    · have : o = '4' := by simpa using hr
      subst this
      exact Or.inl (by decide)
    · have : o = '-' := by simpa using hr
      exact Or.inr this


theorem replyWithMaskedError_eq (errorType : String) (rng rng1 : RandomSource) (ref : String)
    (hu : createUUID rng = .ok (ref, rng1)) (args : ErrorArgs) :
    replyWithMaskedError errorType rng args = .ok (rng1,
      Call.consoleLog ("[ERROR:" ++ ref ++ "] (" ++ toString (resolveArgs args).1 ++ ") " ++
          (resolveArgs args).2) ::
        replyWithError errorType
          (.plain (some (resolveArgs args).1) (some ("An error occurred. Reference: " ++ ref)))) := by
  simp [replyWithMaskedError, hu]

theorem clientVisible_replyWithError (errorType : String) (n : Int) (m : String) :
    clientVisible (replyWithError errorType (.plain (some n) (some m))) =
      [Call.setStatusMessage m, Call.status n,
        Call.body (if errorType = "json" then .json n m else .send m)] := by
  by_cases hn : n ≥ 500 <;> by_cases he : errorType = "json" <;>
    simp [replyWithError, resolveArgs, clientVisible, hn, he, List.filter]

theorem bodiesSent_replyWithError (errorType : String) (n : Int) (m : String) :
    bodiesSent (replyWithError errorType (.plain (some n) (some m))) =
      [bodyText (if errorType = "json" then .json n m else .send m)] := by
  by_cases hn : n ≥ 500 <;> by_cases he : errorType = "json" <;>
    simp [replyWithError, resolveArgs, bodiesSent, hn, he]

theorem jsonEscape_reference (ref : String)
    (hchars : ∀ c ∈ ref.data, isLowerHex c = true ∨ c = '-') :
    ("An error occurred. Reference: ".data ++ ref.data).flatMap jsonEscape =
      "An error occurred. Reference: ".data ++ ref.data := by
  have h : ∀ l : List Char, (∀ c ∈ l, isLowerHex c = true ∨ c = '-') →
      l.flatMap jsonEscape = l := by
    intro l
    induction l with
    | nil => intro _; rfl
    | cons c cs ih =>
      intro hl
      have hc := hl c (List.mem_cons_self _ _)
      have hesc : jsonEscape c = [c] := by
        rcases hc with hc | hc
        · simp only [isLowerHex, decide_eq_true_eq] at hc
          have hc' : c ∈ ['0', '1', '2', '3', '4', '5', '6', '7', '8', '9', 'a', 'b', 'c',
              'd', 'e', 'f'] := hc
          simp only [List.mem_cons, List.mem_singleton, List.not_mem_nil, or_false] at hc'
          rcases hc' with h | h | h | h | h | h | h | h | h | h | h | h | h | h | h | h <;>
            (subst h; decide)
        · subst hc; decide
      rw [List.flatMap_cons, hesc, ih (fun c hc => hl c (List.mem_cons_of_mem _ hc))]
      rfl
  have h1 : "An error occurred. Reference: ".data.flatMap jsonEscape =
      "An error occurred. Reference: ".data := by decide
  rw [List.flatMap_append, h1, h _ hchars]

theorem no_w_of_reference (ref : String)
    (hchars : ∀ c ∈ ref.data, isLowerHex c = true ∨ c = '-') : 'w' ∉ ref.data := by
  intro hw
  rcases hchars _ hw with h | h
  · exact absurd h (by decide)
  · exact absurd h (by decide)

theorem maskedBody_data (errorType ref : String)
    (hchars : ∀ c ∈ ref.data, isLowerHex c = true ∨ c = '-') :
    ∃ A B : List Char, 'w' ∉ A ∧ 'w' ∉ B ∧
      (bodyText (if errorType = "json" then
          Body.json 500 ("An error occurred. Reference: " ++ ref)
        else Body.send ("An error occurred. Reference: " ++ ref))).data = A ++ ref.data ++ B := by
  by_cases he : errorType = "json"
  · refine ⟨"\x7b\"status\":500,\"message\":\"An error occurred. Reference: ".data,
      "\"\x7d".data, by decide, by decide, ?_⟩
    simp only [he, if_true, bodyText, String.data_append]
    rw [jsonEscape_reference ref hchars]
    have h500 : (toString (500 : Int)).data = "500".data := by decide
    rw [h500]
    simp only [List.append_assoc]
    rfl
  · refine ⟨"An error occurred. Reference: ".data, [], by decide, by decide, ?_⟩
    simp only [he, if_false, bodyText, String.data_append, List.append_nil]

/-- C7: for every numeric status, every real message (a string or the message of a trailing
`Error`), every error mode and every random source, `replyWithMaskedError` returns, and
the calls the client can observe are the status message, the status and the body built
from the status and the generated reference alone: the message is
`An error occurred. Reference: <ref>` with `<ref>` of 36 characters among `0-9`, `a-f`
and `-`, the status is the one given, and any other real message gives the same
observable calls; for status 500 and the message `db down` the body sent does not contain
`db down` and contains the reference. -/
theorem replyWithMaskedError_masks (errorType : String) (rng : RandomSource) (status : Int)
    (message : String) (asError : Bool) :
    ∃ ref rng1 calls,
      createUUID rng = .ok (ref, rng1) ∧
      replyWithMaskedError errorType rng
          (if asError then .trailingError (some status) message
            else .plain (some status) (some message)) = .ok (rng1, calls) ∧
      ref.length = 36 ∧ (∀ c ∈ ref.data, isLowerHex c = true ∨ c = '-') ∧
      clientVisible calls =
        [Call.setStatusMessage ("An error occurred. Reference: " ++ ref), Call.status status,
          Call.body (if errorType = "json" then
              .json status ("An error occurred. Reference: " ++ ref)
            else .send ("An error occurred. Reference: " ++ ref))] ∧
      (∀ (message2 : String) (asError2 : Bool), ∃ calls2,
        replyWithMaskedError errorType rng
            (if asError2 then .trailingError (some status) message2
              else .plain (some status) (some message2)) = .ok (rng1, calls2) ∧
          clientVisible calls2 = clientVisible calls) ∧
      (∃ calls3 b,
        replyWithMaskedError errorType rng (.plain (some 500) (some "db down"))
            = .ok (rng1, calls3) ∧
          bodiesSent calls3 = [b] ∧ includes b "db down" = false ∧ includes b ref = true) := by
  obtain ⟨ref, rng1, hu, hlen, hchars⟩ := createUUID_chars rng
  have hres : ∀ (m : String) (e : Bool),
      resolveArgs (if e then ErrorArgs.trailingError (some status) m
        else ErrorArgs.plain (some status) (some m)) = (status, m) := by
    intro m e
    cases e <;> simp [resolveArgs]
  have hrun : ∀ (m : String) (e : Bool),
      replyWithMaskedError errorType rng
          (if e then ErrorArgs.trailingError (some status) m
            else ErrorArgs.plain (some status) (some m)) = .ok (rng1,
        Call.consoleLog ("[ERROR:" ++ ref ++ "] (" ++ toString status ++ ") " ++ m) ::
          replyWithError errorType
            (.plain (some status) (some ("An error occurred. Reference: " ++ ref)))) := by
    intro m e
    rw [replyWithMaskedError_eq errorType rng rng1 ref hu, hres]
  have hvis : ∀ (m : String), clientVisible
      (Call.consoleLog ("[ERROR:" ++ ref ++ "] (" ++ toString status ++ ") " ++ m) ::
        replyWithError errorType
          (.plain (some status) (some ("An error occurred. Reference: " ++ ref)))) =
      [Call.setStatusMessage ("An error occurred. Reference: " ++ ref), Call.status status,
        Call.body (if errorType = "json" then
            .json status ("An error occurred. Reference: " ++ ref)
          else .send ("An error occurred. Reference: " ++ ref))] := by
    intro m
    rw [← clientVisible_replyWithError]
    simp [clientVisible, List.filter]
  refine ⟨ref, rng1, _, hu, hrun message asError, hlen, hchars, hvis message, ?_, ?_⟩
  · intro message2 asError2
    exact ⟨_, hrun message2 asError2, by rw [hvis message2, hvis message]⟩
  · refine ⟨_, bodyText (if errorType = "json" then
          Body.json 500 ("An error occurred. Reference: " ++ ref)
        else Body.send ("An error occurred. Reference: " ++ ref)),
      replyWithMaskedError_eq errorType rng rng1 ref hu _, ?_, ?_, ?_⟩
    · simp only [bodiesSent, resolveArgs, Option.getD_some]
      exact bodiesSent_replyWithError errorType 500 _
    · have hw := no_w_of_reference ref hchars
      obtain ⟨A, B, hA, hB, hdata⟩ := maskedBody_data errorType ref hchars
      simp only [includes, decide_eq_false_iff_not]
      intro hinf
      have hmem := hinf.subset (show 'w' ∈ "db down".data by decide)
      rw [hdata] at hmem
      simp only [List.mem_append] at hmem
      rcases hmem with (h | h) | h
      · exact hA h
      · exact hw h
      · exact hB h
    · obtain ⟨A, B, -, -, hdata⟩ := maskedBody_data errorType ref hchars
      simp only [includes, decide_eq_true_eq]
      rw [hdata]
      exact ⟨A, B, rfl⟩


/-! ## CORS: preflight -/

theorem headerOf_append_setHeader (name : String) (v : HeaderValue) (earlier : List Call) :
    headerOf name (earlier ++ [Call.setHeader name v]) = some v := by
  induction earlier with
  | nil => simp [headerOf]
  | cons c cs ih => simp [headerOf, ih]

theorem headerOf_append_sendStatus (name : String) (code : Nat) (calls : List Call) :
    headerOf name (calls ++ [Call.sendStatus code]) = headerOf name calls := by
  induction calls with
  | nil => simp [headerOf]
  | cons c cs ih => simp [headerOf, ih]

/-- C6: when the upper-cased method of the request is `OPTIONS`, the middleware of
`allowPreflight()` sends status 200 exactly once and never invokes the continuation; with
a non-empty `Access-Control-Request-Headers` header it leaves `Access-Control-Allow-Headers`
set, whatever was set before, to the lower-cased comma-split entries of that header
without duplicates in the order of first occurrence, and without one it writes no header.
For every other method its only call is one invocation of the continuation. -/
theorem allowPreflight_decides (rt : Runtime) (req : Request) (earlier : List Call) :
    (rt.toUpperCase req.method = "OPTIONS" →
      statusesSent (allowPreflight rt req) = [200] ∧
      nextCalls (allowPreflight rt req) = 0 ∧
      (∀ h, req.accessControlRequestHeaders = some h → h ≠ "" →
        ∃ v, allowPreflight rt req =
            [Call.setHeader "Access-Control-Allow-Headers" (.list v), Call.sendStatus 200] ∧
          headerOf "Access-Control-Allow-Headers" (earlier ++ allowPreflight rt req)
            = some (.list v) ∧
          v.Nodup ∧ (∀ x, x ∈ v ↔ x ∈ (split h ',').map rt.toLowerCase) ∧
          v.Pairwise (fun a b =>
            ((split h ',').map rt.toLowerCase).indexOf a <
              ((split h ',').map rt.toLowerCase).indexOf b)) ∧
      (truthy req.accessControlRequestHeaders = false →
        allowPreflight rt req = [Call.sendStatus 200])) ∧
    (rt.toUpperCase req.method ≠ "OPTIONS" →
      allowPreflight rt req = [Call.next] ∧ nextCalls (allowPreflight rt req) = 1 ∧
      statusesSent (allowPreflight rt req) = [] ∧
      ∀ name, headerOf name (earlier ++ allowPreflight rt req) = headerOf name earlier) := by
  constructor
  · intro hm
    refine ⟨?_, ?_, ?_, ?_⟩
    · by_cases ht : truthy req.accessControlRequestHeaders = true <;>
        simp [allowPreflight, hm, ht, allowHeaders, callNext, statusesSent]
    · by_cases ht : truthy req.accessControlRequestHeaders = true <;>
        simp [allowPreflight, hm, ht, allowHeaders, callNext, nextCalls]
    · intro h hh hne
      have ht : truthy req.accessControlRequestHeaders = true := by
        simp [hh, truthy, hne]
      obtain ⟨hmem, hnd, hpw⟩ := arrayFromSet_spec ((split h ',').map rt.toLowerCase)
      have hrun : allowPreflight rt req =
          [Call.setHeader "Access-Control-Allow-Headers"
            (.list (arrayFromSet ((split h ',').map rt.toLowerCase))), Call.sendStatus 200] := by
        rw [hh] at ht
        simp [allowPreflight, hm, ht, allowHeaders, callNext, hh]
      refine ⟨_, hrun, ?_, hnd, hmem, hpw⟩
      rw [hrun]
      have happ : earlier ++ [Call.setHeader "Access-Control-Allow-Headers"
            (.list (arrayFromSet ((split h ',').map rt.toLowerCase))), Call.sendStatus 200] =
          (earlier ++ [Call.setHeader "Access-Control-Allow-Headers"
            (.list (arrayFromSet ((split h ',').map rt.toLowerCase)))]) ++
            [Call.sendStatus 200] := by simp
      rw [happ, headerOf_append_sendStatus, headerOf_append_setHeader]
    · intro ht
      simp [allowPreflight, hm, ht]
  · intro hm
    have hrun : allowPreflight rt req = [Call.next] := by simp [allowPreflight, hm]
    refine ⟨hrun, by simp [hrun, nextCalls], by simp [hrun, statusesSent], ?_⟩
    intro name
    rw [hrun]
    induction earlier with
    | nil => simp [headerOf]
    | cons c cs ih => simp [headerOf, ih]


/-! ## The composite policy `applySimpleCORS` -/

/-- C1: whenever the middleware registered by `applySimpleCORS` returns, it has neither
invoked the continuation nor sent a status; so it is on a `GET` request and on an
`OPTIONS` request, where it writes its three headers and stops, while the middleware of
`allowAll` on the same requests invokes the continuation once, resp. sends status 200
once. -/
theorem applySimpleCORS_neither_next_nor_status :
    (∀ (rt : Runtime) (host : HeaderValue) (req : Request),
      ∀ calls ∈ applySimpleCORS rt host req, nextCalls calls = 0 ∧ statusesSent calls = []) ∧
    (∃ calls, applySimpleCORS asciiRuntime (.str "*") { method := "GET" } = some calls ∧
      nextCalls calls = 0 ∧ statusesSent calls = []) ∧
    (∃ calls, applySimpleCORS asciiRuntime (.str "*") { method := "OPTIONS" } = some calls ∧
      nextCalls calls = 0 ∧ statusesSent calls = []) ∧
    (∃ calls, allowAll asciiRuntime (.str "*") { method := "GET" } = some calls ∧
      nextCalls calls = 1 ∧ statusesSent calls = []) ∧
    (∃ calls, allowAll asciiRuntime (.str "*") { method := "OPTIONS" } = some calls ∧
      nextCalls calls = 0 ∧ statusesSent calls = [200]) := by
  refine ⟨?_, ⟨_, rfl, ?_, ?_⟩, ⟨_, rfl, ?_, ?_⟩, ⟨_, rfl, ?_, ?_⟩, ⟨_, rfl, ?_, ?_⟩⟩
  · intro rt host req calls hcalls
    simp only [applySimpleCORS, allowOrigins] at hcalls
    cases hres : resolveOrigin rt host req with
    | mk host1 v =>
      cases v with
      | none => simp [hres] at hcalls
      | some v =>
        simp only [hres, Option.mem_def, Option.some.injEq] at hcalls
        subst hcalls
        simp [nextCalls, statusesSent, allowHeaders, allowMethods, callNext]
  all_goals decide

/-! ## One `allowOrigins` middleware over several requests -/

/-- C2: one middleware `allowOrigins('*')` that first serves a request from
`http://localhost:3000` writes `http://localhost:3000` again for a later request from
`http://evil.example`, for which a fresh middleware writes `*`; one middleware
`allowOrigins(['a.test', 'b.test'])` that first serves `Host: b.test` writes `b.test`
again for a later request with `Host: a.test`, for which a fresh one writes `a.test`. -/
theorem allowOrigins_remembers_first_request :
    originsWritten asciiRuntime (.str "*")
        [{ origin := some "http://localhost:3000" }, { origin := some "http://evil.example" }]
      = [some (.str "http://localhost:3000"), some (.str "http://localhost:3000")] ∧
    originsWritten asciiRuntime (.str "*") [{ origin := some "http://evil.example" }]
      = [some (.str "*")] ∧
    originsWritten asciiRuntime (.list ["a.test", "b.test"])
        [{ host := some "b.test" }, { host := some "a.test" }]
      = [some (.str "b.test"), some (.str "b.test")] ∧
    originsWritten asciiRuntime (.list ["a.test", "b.test"]) [{ host := some "a.test" }]
      = [some (.str "a.test")] := by
  refine ⟨?_, ?_, ?_, ?_⟩ <;> decide

/-! ## Bearer tokens -/

/-- C10: whenever the verifier function returns a truthy value for the token of a request
that carries an `Authorization` header, the middleware of `bearer` makes no call at all:
`req.user` is not set, the continuation is not invoked and no status is sent.  So it is
with the verifier `t => t` and the header `bearer abc`; with a verifier that returns a
falsy value the middleware sends 401, and with the static token `abc` it sets `req.user`
and invokes the continuation. -/
theorem bearer_verifier_truthy_makes_no_call :
    (∀ (rt : Runtime) (f : String → Option String) (req : Request) (auth data : String),
      req.authorization = some auth → auth ≠ "" → f (stripBearer auth) = some data →
      (bearer rt (.verifier f) req).2 = []) ∧
    stripBearer "bearer abc" = "abc" ∧
    (bearer asciiRuntime (.verifier fun t => some t) { authorization := some "bearer abc" }).2
      = [] ∧
    (bearer asciiRuntime (.verifier fun _ => none) { authorization := some "bearer abc" }).2
      = [Call.sendStatus 401] ∧
    (bearer asciiRuntime (.token "abc" true) { authorization := some "bearer abc" }).2
      = [Call.setUser "abc", Call.next] := by
  refine ⟨?_, ?_, ?_, ?_, ?_⟩
  · intro rt f req auth data hauth hne hf
    simp [bearer, hauth, truthy, hne, hf]
  all_goals decide

/-! ## CORS: a list of origins -/

theorem arrayIndexOf_of_mem (l : List String) (x : String) (hx : x ∈ l) :
    arrayIndexOf l x ≥ 0 ∧ l.getD (arrayIndexOf l x).toNat "" = x := by
  have hlt : l.indexOf x < l.length := List.indexOf_lt_length.2 hx
  simp only [arrayIndexOf, if_pos hlt]
  refine ⟨by omega, ?_⟩
  simp only [Int.toNat_ofNat]
  rw [List.getD_eq_getElem _ _ hlt]
  exact List.indexOf_get hlt

/-- C3 (as stated, refuted): for the list `['Example.COM']`, which has no wildcard, and a
request whose `Host` header `example.com` equals the entry case-insensitively, the
middleware writes `example.com`, not the configured entry `Example.COM`. -/
theorem allowOrigins_list_case_not_preserved :
    hostIncludes (.list ["Example.COM"]) "*" = false ∧
    asciiRuntime.toLowerCase "example.com" = asciiRuntime.toLowerCase "Example.COM" ∧
    (allowOrigins asciiRuntime (.list ["Example.COM"]) { host := some "example.com" } true).2
      = some [Call.setHeader "Access-Control-Allow-Origin" (.str "example.com"), Call.next] ∧
    HeaderValue.str "example.com" ≠ HeaderValue.str "Example.COM" := by
  refine ⟨?_, ?_, ?_, ?_⟩ <;> decide

/-- C3 (amended): for a list of origins without the entry `*` and the first request
handled by the middleware of `allowOrigins`, if the `Host` header and a non-blank entry of
the list have the same lower-cased form, the middleware writes that lower-cased form of
the entry to `Access-Control-Allow-Origin` (and then calls the continuation it was
given). -/
theorem allowOrigins_list_match_lowercased (rt : Runtime) (l : List String) (req : Request)
    (h e : String) (hasNext : Bool) (hstar : "*" ∉ l) (hhost : req.host = some h)
    (he : e ∈ l) (hblank : (trim e).length > 0)
    (hmatch : rt.toLowerCase h = rt.toLowerCase e) :
    (allowOrigins rt (.list l) req hasNext).2 =
        some (Call.setHeader "Access-Control-Allow-Origin" (.str (rt.toLowerCase e)) ::
          callNext hasNext) ∧
      originsWritten rt (.list l) [req] = [some (.str (rt.toLowerCase e))] := by
  have hmem : rt.toLowerCase e ∈
      (l.filter (fun h => (trim h).length > 0)).map rt.toLowerCase :=
    List.mem_map_of_mem _ (List.mem_filter.2 ⟨he, by simpa using hblank⟩)
  obtain ⟨hidx, hget⟩ := arrayIndexOf_of_mem _ _ hmem
  have hres : resolveOrigin rt (.list l) req =
      (.str (rt.toLowerCase e), some (.str (rt.toLowerCase e))) := by
    have hcond : ¬ ((decide (HeaderValue.list l = .str "*") || hostIncludes (.list l) "*")
        = true) := by
      simp [hostIncludes, hstar]
    unfold resolveOrigin
    rw [if_neg hcond]
    simp only [hhost, hmatch, if_pos hidx, hget]
  have hrun : allowOrigins rt (.list l) req hasNext =
      (.str (rt.toLowerCase e),
        some (Call.setHeader "Access-Control-Allow-Origin" (.str (rt.toLowerCase e)) ::
          callNext hasNext)) := by
    simp only [allowOrigins, hres]
  refine ⟨by rw [hrun], ?_⟩
  have hrun' : allowOrigins rt (.list l) req true =
      (.str (rt.toLowerCase e),
        some (Call.setHeader "Access-Control-Allow-Origin" (.str (rt.toLowerCase e)) ::
          callNext true)) := by
    simp only [allowOrigins, hres]
  simp only [originsWritten, hrun', Option.bind]
  rw [headerOf_setHeader_callNext]

/-- C3 (amended), at the list `['Example.COM']` and the header `Host: example.com`. -/
theorem allowOrigins_list_match_lowercased_witness :
    (allowOrigins asciiRuntime (.list ["Example.COM"]) { host := some "example.com" } true).2 =
        some (Call.setHeader "Access-Control-Allow-Origin"
          (.str (asciiRuntime.toLowerCase "Example.COM")) :: callNext true) ∧
      originsWritten asciiRuntime (.list ["Example.COM"]) [{ host := some "example.com" }] =
        [some (.str (asciiRuntime.toLowerCase "Example.COM"))] :=
  allowOrigins_list_match_lowercased asciiRuntime ["Example.COM"] { host := some "example.com" }
    "example.com" "Example.COM" true (by decide) rfl (by decide) (by decide) (by decide)


/-! ## CORS: a wildcard host spec -/

/-- C4 (as stated, refuted): for the host spec `*.localhost`, a string that contains `*`,
and a first request with neither origin nor referer, the middleware writes the spec
`*.localhost` itself, not `*`; for the list `['*', 'localhost']` it writes the list. -/
theorem allowOrigins_wildcard_not_always_star :
    hostIncludes (.str "*.localhost") "*" = true ∧
    (allowOrigins asciiRuntime (.str "*.localhost") { } true).2
      = some [Call.setHeader "Access-Control-Allow-Origin" (.str "*.localhost"), Call.next] ∧
    HeaderValue.str "*.localhost" ≠ HeaderValue.str "*" ∧
    hostIncludes (.list ["*", "localhost"]) "*" = true ∧
    (allowOrigins asciiRuntime (.list ["*", "localhost"]) { } true).2
      = some [Call.setHeader "Access-Control-Allow-Origin" (.list ["*", "localhost"]),
          Call.next] := by
  refine ⟨?_, ?_, ?_, ?_, ?_⟩ <;> decide

/-- C4 (amended): for a host spec that is `*` or contains `*`, the first request handled
by the middleware of `allowOrigins` gets one `Access-Control-Allow-Origin` value.  With a
non-empty origin it is that origin when the origin contains `localhost` and `*`
otherwise; with no origin and a non-empty referer it is that referer when the referer
contains `localhost` and `*` otherwise; with neither it is the configured spec itself
when the spec contains `localhost` (as a substring of the string, or as an entry of the
list) and `*` otherwise. -/
theorem allowOrigins_wildcard (rt : Runtime) (host : HeaderValue) (req : Request)
    (hasNext : Bool) (hw : host = .str "*" ∨ hostIncludes host "*" = true) :
    ∃ v, (allowOrigins rt host req hasNext).2 =
        some (Call.setHeader "Access-Control-Allow-Origin" v :: callNext hasNext) ∧
      (∀ o, req.origin = some o → o ≠ "" →
        v = if includes o "localhost" then .str o else .str "*") ∧
      (∀ r, truthy req.origin = false → req.referer = some r → r ≠ "" →
        v = if includes r "localhost" then .str r else .str "*") ∧
      (truthy req.origin = false → truthy req.referer = false →
        v = if hostIncludes host "localhost" then host else .str "*") := by
  have hcond : (decide (host = .str "*") || hostIncludes host "*") = true := by
    rcases hw with h | h
    · simp [h]
    · simp [h]
  have hres : resolveOrigin rt host req =
      ((if hostIncludes (orHost (orElse req.origin req.referer) host) "localhost" then
          orHost (orElse req.origin req.referer) host else .str "*"),
        some (if hostIncludes (orHost (orElse req.origin req.referer) host) "localhost" then
          orHost (orElse req.origin req.referer) host else .str "*")) := by
    unfold resolveOrigin
    rw [if_pos hcond]
  refine ⟨(if hostIncludes (orHost (orElse req.origin req.referer) host) "localhost" then
      orHost (orElse req.origin req.referer) host else .str "*"),
    by simp only [allowOrigins, hres], ?_, ?_, ?_⟩
  · intro o ho hne
    simp [ho, orElse, truthy, hne, orHost, hostIncludes]
  · intro r hno hr hne
    simp [hr, orElse, hno, orHost, hne, hostIncludes]
  · intro hno hnr
    have : orHost (orElse req.origin req.referer) host = host := by
      simp only [orElse, hno]
      cases hr : req.referer with
      | none => simp [orHost]
      | some r =>
        have : r = "" := by simpa [truthy, hr] using hnr
        simp [orHost, this]
    rw [this]

/-- C4 (amended), at the spec `*` and a request from `http://localhost:3000`. -/
theorem allowOrigins_wildcard_witness :
    ∃ v, (allowOrigins asciiRuntime (.str "*") { origin := some "http://localhost:3000" }
          true).2 =
        some (Call.setHeader "Access-Control-Allow-Origin" v :: callNext true) ∧
      (∀ o, (some "http://localhost:3000" : Option String) = some o → o ≠ "" →
        v = if includes o "localhost" then .str o else .str "*") ∧
      (∀ r, truthy (some "http://localhost:3000") = false → (none : Option String) = some r →
        r ≠ "" → v = if includes r "localhost" then .str r else .str "*") ∧
      (truthy (some "http://localhost:3000") = false → truthy none = false →
        v = if hostIncludes (.str "*") "localhost" then .str "*" else .str "*") :=
  allowOrigins_wildcard asciiRuntime (.str "*") { origin := some "http://localhost:3000" } true
    (Or.inl rfl)


/-! ## Basic authentication -/

theorem splitChars_ne_nil (sep : Char) (l : List Char) : splitChars sep l ≠ [] := by
  cases l with
  | nil => simp [splitChars]
  | cons c cs =>
    by_cases h : c = sep
    · simp [splitChars, h]
    · simp only [splitChars, if_neg h]
      split <;> simp

theorem splitChars_of_not_mem (sep : Char) (l : List Char) (h : sep ∉ l) :
    splitChars sep l = [l] := by
  induction l with
  | nil => rfl
  | cons c cs ih =>
    have hc : c ≠ sep := fun hc => h (hc ▸ List.mem_cons_self _ _)
    have hcs : sep ∉ cs := fun hm => h (List.mem_cons_of_mem _ hm)
    simp [splitChars, hc, ih hcs]

theorem splitChars_append (sep : Char) (a b : List Char) (h : sep ∉ a) :
    splitChars sep (a ++ sep :: b) = a :: splitChars sep b := by
  induction a with
  | nil => simp [splitChars]
  | cons c cs ih =>
    have hc : c ≠ sep := fun hc => h (hc ▸ List.mem_cons_self _ _)
    have hcs : sep ∉ cs := fun hm => h (List.mem_cons_of_mem _ hm)
    simp [splitChars, hc, ih hcs]

theorem splitChars_join (sep : Char) (l : List Char) :
    ((splitChars sep l).intersperse [sep]).flatten = l := by
  induction l with
  | nil => simp [splitChars]
  | cons c cs ih =>
    by_cases hc : c = sep
    · simp only [splitChars, if_pos hc]
      cases hs : splitChars sep cs with
      | nil => exact absurd hs (splitChars_ne_nil sep cs)
      | cons p ps =>
        rw [hs] at ih
        simp [List.intersperse, ih, hc]
    · simp only [splitChars, if_neg hc]
      cases hs : splitChars sep cs with
      | nil => exact absurd hs (splitChars_ne_nil sep cs)
      | cons p ps =>
        rw [hs] at ih
        cases ps with
        | nil => simpa [List.intersperse] using ih
        | cons q qs =>
          simp only [List.intersperse, List.flatten, List.cons_append] at ih ⊢
          rw [ih]

theorem splitChars_pair (sep : Char) (l a b : List Char) (h : splitChars sep l = [a, b]) :
    l = a ++ sep :: b := by
  have hj := splitChars_join sep l
  rw [h] at hj
  simpa [List.intersperse] using hj.symm


theorem split_pair_iff (s u p : String) (hu : ':' ∉ u.data) (hp : ':' ∉ p.data) :
    split s ':' = [u, p] ↔ s = u ++ ":" ++ p := by
  constructor
  · intro h
    have hchars : splitChars ':' s.data = [u.data, p.data] := by
      have h1 := congrArg (List.map String.data) h
      simpa [split, List.map_map, Function.comp_def] using h1
    have hdata := splitChars_pair ':' s.data u.data p.data hchars
    apply String.ext
    rw [hdata]
    simp [String.data_append]
  · intro h
    have hdata : s.data = u.data ++ ':' :: p.data := by
      rw [h]
      simp [String.data_append]
    simp [split, hdata, splitChars_append ':' _ _ hu, splitChars_of_not_mem ':' _ hp]

theorem pair_iff (parts : List String) (u p : String) :
    (parts.length = 2 ∧ parts.getD 0 "" = u ∧ parts.getD 1 "" = p) ↔ parts = [u, p] := by
  constructor
  · rintro ⟨hlen, h0, h1⟩
    match parts, hlen with
    | [a, b], _ =>
      simp at h0 h1
      rw [h0, h1]
  · rintro rfl
    simp

theorem splitSpaceAux_of_no_space (l : List Char) (h : ∀ c ∈ l, isWhiteSpace c = false) :
    ∀ b, splitSpaceAux b l = [l] := by
  induction l with
  | nil => intro b; rfl
  | cons c cs ih =>
    intro b
    have hc := h c (List.mem_cons_self _ _)
    have hcs := ih (fun d hd => h d (List.mem_cons_of_mem _ hd)) false
    simp [splitSpaceAux, hc, hcs]

theorem splitWhitespace_basic (tok : String) (h : ∀ c ∈ tok.data, isWhiteSpace c = false) :
    splitWhitespace ("Basic " ++ tok) = ["Basic", tok] := by
  have hd : ("Basic " ++ tok).data = 'B' :: 'a' :: 's' :: 'i' :: 'c' :: ' ' :: tok.data := by
    simp [String.data_append]
  have hB : isWhiteSpace 'B' = false := by decide
  have ha : isWhiteSpace 'a' = false := by decide
  have hs : isWhiteSpace 's' = false := by decide
  have hi : isWhiteSpace 'i' = false := by decide
  have hc : isWhiteSpace 'c' = false := by decide
  have hsp : isWhiteSpace ' ' = true := by decide
  have htok := splitSpaceAux_of_no_space tok.data h true
  have haux : splitSpaceAux false ('B' :: 'a' :: 's' :: 'i' :: 'c' :: ' ' :: tok.data) =
      [['B', 'a', 's', 'i', 'c'], tok.data] := by
    simp [splitSpaceAux, hB, ha, hs, hi, hc, hsp, htok]
  unfold splitWhitespace
  rw [hd, haux]
  rfl

theorem trim_of_no_space (tok : String) (h : ∀ c ∈ tok.data, isWhiteSpace c = false) :
    trim tok = tok := by
  have hdrop : ∀ l : List Char, (∀ c ∈ l, isWhiteSpace c = false) →
      l.dropWhile isWhiteSpace = l := by
    intro l hl
    cases l with
    | nil => rfl
    | cons c cs => simp [List.dropWhile, hl c (List.mem_cons_self _ _)]
  apply String.ext
  simp only [trim]
  rw [hdrop _ h, hdrop _ (fun c hc => h c (List.mem_reverse.1 hc)), List.reverse_reverse]


theorem basicauth_static_eq (rt : Runtime) (u p : String) (req : Request) :
    basicauth rt (.static u p) req =
      if truthy req.authorization = true ∧
          truthy (splitWhitespace (req.authorization.getD "")).getLast? = true ∧
          (trim ((splitWhitespace (req.authorization.getD "")).getLast?.getD "")).length > 0 ∧
          split (rt.base64ToBinary
            ((splitWhitespace (req.authorization.getD "")).getLast?.getD "")) ':' = [u, p]
      then [Call.setUser u, Call.next] else denyBasic req := by
  unfold basicauth atob
  by_cases h1 : truthy req.authorization = true
  · by_cases h2 : truthy (splitWhitespace (req.authorization.getD "")).getLast? = true
    · by_cases h3 :
          (trim ((splitWhitespace (req.authorization.getD "")).getLast?.getD "")).length > 0
      · by_cases h4 : split (rt.base64ToBinary
            ((splitWhitespace (req.authorization.getD "")).getLast?.getD "")) ':' = [u, p]
        · simp [h1, h2, h3, h4]
        · have h5 := (not_congr (pair_iff _ u p)).2 h4
          by_cases hlen : (split (rt.base64ToBinary
              ((splitWhitespace (req.authorization.getD "")).getLast?.getD "")) ':').length = 2
          · have h6 : ¬ ((split (rt.base64ToBinary
                  ((splitWhitespace (req.authorization.getD "")).getLast?.getD "")) ':').getD 0 ""
                  = u ∧
                (split (rt.base64ToBinary
                  ((splitWhitespace (req.authorization.getD "")).getLast?.getD "")) ':').getD 1 ""
                  = p) := fun h => h5 ⟨hlen, h⟩
            simp only [h1, h2, h3, h4, hlen, if_true, if_false, and_false, and_true,
              Bool.true_and, decide_True, Bool.and_self, Bool.and_eq_true, decide_eq_true_eq, h6]
          · simp [h1, h2, h3, h4, hlen]
      · simp [h1, h2, h3]
    · simp [h1, h2]
  · simp [h1]

/-- C9 (as stated, refuted): with the static credentials `u`, `p` the middleware of
`basicauth` grants on the header `Bearer dTpw` and on the header `dTpw`, which carry the
payload of `u:p` without the `Basic` scheme; and with the credentials `u`, `p:q` it denies
the header `Basic dTpwOnE=`, whose payload decodes to `u:p:q`. -/
theorem basicauth_scheme_not_checked :
    asciiRuntime.base64ToBinary "dTpw" = "u:p" ∧
    basicauth asciiRuntime (.static "u" "p")
        { authorization := some "Bearer dTpw", host := some "api.test" }
      = [Call.setUser "u", Call.next] ∧
    basicauth asciiRuntime (.static "u" "p")
        { authorization := some "dTpw", host := some "api.test" }
      = [Call.setUser "u", Call.next] ∧
    asciiRuntime.base64ToBinary "dTpwOnE=" = "u:p:q" ∧
    basicauth asciiRuntime (.static "u" "p:q")
        { authorization := some "Basic dTpwOnE=", host := some "api.test" }
      = [Call.setHeader "WWW-Authenticate" (.str "Basic realm=api.test"),
          Call.sendStatus 401] := by
  refine ⟨?_, ?_, ?_, ?_, ?_⟩ <;> decide

/-- C9 (amended): for static credentials `u`, `p` without a colon and every request, the
middleware of `basicauth` either grants (sets `req.user` to `u` and invokes the
continuation once, sending no status) or denies (sets `WWW-Authenticate` to
`Basic realm=<host>` and sends 401, never invoking the continuation).  It grants exactly
when the `Authorization` header is present and not empty and its last
white-space-separated piece is not blank and decodes from base64 to `u:p`, whatever
stands before that piece; in particular it grants on `Basic ` followed by such a piece. -/
theorem basicauth_static (rt : Runtime) (u p : String) (req : Request)
    (hu : ':' ∉ u.data) (hp : ':' ∉ p.data) :
    (basicauth rt (.static u p) req = [Call.setUser u, Call.next] ∨
      basicauth rt (.static u p) req =
        [Call.setHeader "WWW-Authenticate" (.str ("Basic realm=" ++ render req.host)),
          Call.sendStatus 401]) ∧
    (basicauth rt (.static u p) req = [Call.setUser u, Call.next] ↔
      ∃ auth tok, req.authorization = some auth ∧ auth ≠ "" ∧
        (splitWhitespace auth).getLast? = some tok ∧ (trim tok).length > 0 ∧
        rt.base64ToBinary tok = u ++ ":" ++ p) ∧
    (∀ tok, tok ≠ "" → (∀ c ∈ tok.data, isWhiteSpace c = false) →
      rt.base64ToBinary tok = u ++ ":" ++ p → req.authorization = some ("Basic " ++ tok) →
      basicauth rt (.static u p) req = [Call.setUser u, Call.next]) := by
  have hiff : basicauth rt (.static u p) req = [Call.setUser u, Call.next] ↔
      ∃ auth tok, req.authorization = some auth ∧ auth ≠ "" ∧
        (splitWhitespace auth).getLast? = some tok ∧ (trim tok).length > 0 ∧
        rt.base64ToBinary tok = u ++ ":" ++ p := by
    rw [basicauth_static_eq]
    constructor
    · intro h
      split_ifs at h with hc
      · obtain ⟨h1, h2, h3, h4⟩ := hc
        cases hauth : req.authorization with
        | none => simp [hauth, truthy] at h1
        | some auth =>
          rw [hauth] at h1 h2 h3 h4
          simp only [Option.getD_some] at h2 h3 h4
          cases htok : (splitWhitespace auth).getLast? with
          | none => simp [htok, truthy] at h2
          | some tok =>
            rw [htok] at h3 h4
            simp only [Option.getD_some] at h3 h4
            refine ⟨auth, tok, rfl, ?_, htok, h3, (split_pair_iff _ u p hu hp).1 h4⟩
            simpa [truthy] using h1
      · simp [denyBasic] at h
    · rintro ⟨auth, tok, hauth, hne, htok, htrim, hdec⟩
      have hsplit := (split_pair_iff (rt.base64ToBinary tok) u p hu hp).2 hdec
      have htokne : tok ≠ "" := by
        rintro rfl
        simp [trim] at htrim
      rw [if_pos]
      refine ⟨by simp [hauth, truthy, hne], ?_, ?_, ?_⟩
      · simp [hauth, htok, truthy, htokne]
      · simpa [hauth, htok] using htrim
      · simpa [hauth, htok] using hsplit
  refine ⟨?_, hiff, ?_⟩
  · rw [basicauth_static_eq]
    split_ifs
    · exact Or.inl rfl
    · exact Or.inr rfl
  · intro tok hne hws hdec hauth
    refine hiff.2 ⟨"Basic " ++ tok, tok, hauth, ?_, ?_, ?_, hdec⟩
    · intro h
      have := congrArg String.length h
      simp only [String.length_append] at this
      have h6 : "Basic ".length = 6 := by decide
      have h0 : "".length = 0 := by decide
      omega
    · rw [splitWhitespace_basic tok hws]
      rfl
    · rw [trim_of_no_space tok hws]
      have : tok.length ≠ 0 := by
        intro h0
        apply hne
        apply String.ext
        exact List.length_eq_zero.1 h0
      exact Nat.pos_of_ne_zero this

/-- C9 (amended), at the credentials `u`, `p` and the header `Basic dTpw`. -/
theorem basicauth_static_witness :
    basicauth asciiRuntime (.static "u" "p")
        { authorization := some "Basic dTpw", host := some "api.test" }
      = [Call.setUser "u", Call.next] :=
  (basicauth_static asciiRuntime "u" "p"
      { authorization := some "Basic dTpw", host := some "api.test" }
      (by decide) (by decide)).2.2 "dTpw" (by decide) (by decide) (by decide) rfl

end CommonApi
